import Mathlib

/-!
Verification development for the FinSolve RBAC retrieval-access-control engine.

The definitions below are a shallow embedding of the Python sources:
  src/core/rbac.py          (permission table and filter compiler)
  src/core/rag_chain.py     (department inference and the access decision engine)
  src/core/vector_store.py  (retrieval gateway over the chroma index)

External collaborators (the embedding provider, the chroma vector index and
the language model) are modelled as oracle inputs in an `Env` structure: the
corpus ordered by similarity to the query, failure flags for each external
call, and the model reply.  Machine-level details (HTTP, persistence, UI) are
out of scope, as in the specification.
-/

/-- Python `str.lower()` (ASCII); character-level so that the kernel can
evaluate it on concrete queries. -/
def strLower (s : String) : String :=
  String.mk (s.toList.map Char.toLower)

/-- Python substring test, `needle in hay`. -/
def strContains (hay needle : String) : Bool :=
  decide (List.IsInfix needle.toList hay.toList)

/-- Python `str.capitalize()`: first character upper-cased, the rest
lower-cased (all department names here are ASCII). -/
def pyCapitalize (s : String) : String :=
  match s.toList with
  | [] => ""
  | c :: cs => String.mk (c.toUpper :: cs.map Char.toLower)

/-- Shape of the chroma `where` dictionaries stored in `ROLE_PERMISSIONS`
(rbac.py): a single department equality, an `$or` of department equalities,
or the empty dictionary returned for unknown roles. -/
inductive ChromaFilter where
  | empty : ChromaFilter
  | dept (d : String) : ChromaFilter
  | orDepts (ds : List String) : ChromaFilter
deriving DecidableEq, Repr

/-- rbac.py: `ALL_DEPARTMENTS`. -/
def ALL_DEPARTMENTS : List String := ["finance", "marketing", "hr", "engineering", "general"]

/-- rbac.py: `ROLE_PERMISSIONS` (insertion order of the Python dict). -/
def ROLE_PERMISSIONS : List (String × ChromaFilter) :=
  [("Finance Team", .dept "finance"),
   ("Marketing Team", .dept "marketing"),
   ("HR Team", .dept "hr"),
   ("Engineering Department", .dept "engineering"),
   ("C-Level Executives", .orDepts ALL_DEPARTMENTS),
   ("Employee Level", .dept "general"),
   ("Admin", .orDepts ALL_DEPARTMENTS)]

/-- rbac.py: `get_chroma_filter_for_role`.  A known role has a truthy
dictionary carrying a `department` or `$or` key, which is returned verbatim;
any other lookup result collapses to the empty dictionary. -/
def get_chroma_filter_for_role (role : String) : ChromaFilter :=
  match ROLE_PERMISSIONS.lookup role with
  | some f => f
  | none => ChromaFilter.empty

/-- rag_chain.py lines 99-108: flatten the role permission dictionary into
the set of explicitly permitted departments (a Python `set`; modelled as a
first-occurrence deduplicated list, membership being all the engine uses). -/
def flattenPermissions : Option ChromaFilter → List String
  | some (.dept d) => [d]
  | some (.orDepts conds) =>
      conds.foldl (fun acc d => if d ∈ acc then acc else acc ++ [d]) []
  | some .empty => []
  | none => []

/-- The permitted-department set of a role, `ROLE_PERMISSIONS.get(user_role, \x7b\x7d)`
flattened as in rag_chain.py. -/
def userPermittedDepartments (role : String) : List String :=
  flattenPermissions (ROLE_PERMISSIONS.lookup role)

/-- The literal list `["Admin", "C-Level Executives"]` that rag_chain.py
checks the role against in both denial branches. -/
def privilegedRoles : List String := ["Admin", "C-Level Executives"]

/-- rag_chain.py: `DEPARTMENT_KEYWORDS` (insertion order of the dict). -/
def DEPARTMENT_KEYWORDS : List (String × List String) :=
  [("finance", ["revenue", "expense", "budget", "financial", "income", "profit", "audit",
                "cash flow", "balance sheet", "tax", "quarterly report", "earnings"]),
   ("marketing", ["campaign", "acquisition", "customer", "brand", "market", "advertising",
                  "sales pipeline", "lead generation", "promotional", "digital marketing",
                  "media spend", "target audience", "social media"]),
   ("hr", ["employee", "hr", "human resources", "policy", "onboarding", "leave", "benefits",
           "recruitment", "training", "payroll", "workforce"]),
   ("engineering", ["architecture", "microservices", "development", "tech stack", "deployment",
                    "software", "product roadmap", "system design", "code", "infrastructure",
                    "backend", "frontend"])]

/-- rag_chain.py: `MIN_KEYWORD_MATCHES`. -/
def MIN_KEYWORD_MATCHES : Nat := 1

/-- rag_chain.py line 53: number of keywords occurring as substrings of the
lower-cased query. -/
def keywordScore (queryLower : String) (kws : List String) : Nat :=
  (kws.filter (fun k => strContains queryLower k)).length

/-- rag_chain.py lines 50-55: the `department_scores` dict, in insertion
order, keeping only departments reaching the threshold. -/
def candidateScores (queryLower : String) : List (String × Nat) :=
  DEPARTMENT_KEYWORDS.filterMap (fun p =>
    let score := keywordScore queryLower p.2
    if MIN_KEYWORD_MATCHES ≤ score then some (p.1, score) else none)

/-- Python `max(xs, key=...)` over a nonempty sequence: keep the current
maximum, replacing it only on a strictly greater value, so the first
maximal element wins. -/
def maxAcc (cur : String × Nat) : List (String × Nat) → String × Nat
  | [] => cur
  | p :: ps => if cur.2 < p.2 then maxAcc p ps else maxAcc cur ps

/-- rag_chain.py: `RAGChain._infer_query_department`. -/
def inferQueryDepartment (query : String) : Option String :=
  match candidateScores (strLower query) with
  | [] => none
  | c :: cs => some (maxAcc c cs).1

/-- Metadata dictionary of an ingested chunk, with the three keys the engine
reads; `Option` models an absent key (`dict.get`). -/
structure Metadata where
  source_file : Option String
  department : Option String
  chunk_index : Option Int
deriving DecidableEq, Repr

/-- The `source_info` record built in rag_chain.py lines 181-185, with the
Python defaults for missing keys. -/
structure SourceInfo where
  source_file : String
  department : String
  chunk_index : Int
deriving DecidableEq, Repr

def sourceInfoOf (m : Metadata) : SourceInfo :=
  { source_file := m.source_file.getD "Unknown File",
    department := m.department.getD "Unknown Department",
    chunk_index := m.chunk_index.getD (-1) }

/-- Semantics of a chroma `where` clause on a chunk metadata.  chroma only
applies a truthy `where` argument (`Collection.query` validates the clause
only `if where`), so the empty dictionary imposes no constraint at all. -/
def matchesWhere : ChromaFilter → Metadata → Bool
  | .empty, _ => true
  | .dept d, m => m.department == some d
  | .orDepts ds, m => ds.any (fun d => m.department == some d)

/-- Result dictionary of `ChromaVectorStore.query_documents`: on success the
per-query nested lists `[[...]]`, on a caught index error the flat empty
lists of the error structure (vector_store.py line 86). -/
structure QueryResults where
  documents : List (List String)
  metadatas : List (List Metadata)
deriving DecidableEq, Repr

/-- vector_store.py: `query_documents`.  `ranking` is the corpus ordered by
similarity to the query embedding (an oracle for the index ordering);
chroma returns the `n_results` nearest chunks passing the `where` clause.
When the underlying `collection.query` raises, the handler returns the
error structure whose `documents` value is `[]`, not `[[]]`. -/
def query_documents (ranking : List (String × Metadata)) (fails : Bool)
    (whereClause : Option ChromaFilter) (nResults : Nat) : QueryResults :=
  if fails then { documents := [], metadatas := [] }
  else
    let hits := (match whereClause with
      | none => ranking
      | some f => ranking.filter (fun p => matchesWhere f p.2)).take nResults
    { documents := [hits.map Prod.fst], metadatas := [hits.map Prod.snd] }

/-- Oracle inputs of one `retrieve_and_generate` request: whether the
embedding call succeeds, the similarity-ordered corpus, whether each of the
two index queries raises, and the language-model reply (`None` models a
failed call). -/
structure Env where
  embedOk : Bool
  ranking : List (String × Metadata)
  globalFail : Bool
  scopedFail : Bool
  llmResponse : Option String
deriving Repr

/-- External calls made by the engine, in order. -/
inductive ExtCall where
  | embedCall | queryGlobal | queryScoped | llmCall
deriving DecidableEq, Repr

/-- Classified outcome of `retrieve_and_generate`, one constructor per
`return` site of rag_chain.py (the `proceed` constructor records the context
list, the deduplicated source list, and the raw LLM reply). -/
inductive RAGResult where
  | emptyQuery
  | proactiveDenial (dept : String)
  | embeddingFailure
  | notFoundGlobal
  | reactiveDenial (depts : List String)
  | notFoundScoped
  | proceed (context : List String) (sources : List SourceInfo) (llm : Option String)
deriving DecidableEq, Repr

/-- rag_chain.py lines 156-160: the set of capitalized departments found in
the global probe metadata that the role may not access (a Python `set`;
modelled as a first-occurrence deduplicated list). -/
def deniedDepartments (role : String) (permitted : List String)
    (metas : List Metadata) : List String :=
  metas.foldl (fun acc m =>
    match m.department with
    | some d =>
        if d ≠ "" ∧ d ∉ permitted ∧ role ∉ privilegedRoles then
          (if pyCapitalize d ∈ acc then acc else acc ++ [pyCapitalize d])
        else acc
    | none => acc) []

/-- rag_chain.py lines 177-187: the loop over `enumerate(retrieved_chunks_texts)`.
The metadata list is consumed in lockstep with the text list, which is the
same as indexing `retrieved_chunks_metadatas[i]`; running out of metadata is
the `IndexError` case (`none`). -/
def composeGo (i : Nat) : List String → List Metadata → List String → List SourceInfo →
    Option (List String × List SourceInfo)
  | [], _, ctx, srcs => some (ctx, srcs)
  | _ :: _, [], _, _ => none
  | t :: ts, m :: ms, ctx, srcs =>
      let s := sourceInfoOf m
      composeGo (i + 1) ts ms
        (ctx ++ ["Document chunk " ++ toString (i + 1) ++ ":\n" ++ t])
        (if s ∈ srcs then srcs else srcs ++ [s])

/-- Context strings and deduplicated source list of the proceed path. -/
def composeContextAndSources (texts : List String) (metas : List Metadata) :
    Option (List String × List SourceInfo) :=
  composeGo 0 texts metas [] []

/-- rag_chain.py lines 149-221, Step C onward: decision between not-found,
reactive denial and proceeding to the LLM. -/
def decisionPhase (env : Env) (role : String) (permitted : List String)
    (allTexts : List String) (allMetas : List Metadata)
    (texts : List String) (metas : List Metadata) :
    Option RAGResult × List ExtCall :=
  if texts = [] then
    (if allTexts = [] then
      (some RAGResult.notFoundGlobal, [ExtCall.embedCall, ExtCall.queryGlobal, ExtCall.queryScoped])
     else
      let denied := deniedDepartments role permitted allMetas
      if denied ≠ [] then
        (some (RAGResult.reactiveDenial denied),
         [ExtCall.embedCall, ExtCall.queryGlobal, ExtCall.queryScoped])
      else
        (some RAGResult.notFoundScoped,
         [ExtCall.embedCall, ExtCall.queryGlobal, ExtCall.queryScoped]))
  else
    match composeContextAndSources texts metas with
    | some (ctx, srcs) =>
        (some (RAGResult.proceed ctx srcs env.llmResponse),
         [ExtCall.embedCall, ExtCall.queryGlobal, ExtCall.queryScoped, ExtCall.llmCall])
    | none => (none, [ExtCall.embedCall, ExtCall.queryGlobal, ExtCall.queryScoped])

/-- rag_chain.py lines 123-147: embedding, the global probe (k = 10, no
filter) and the scoped query (k = 5, RBAC filter).  Reading `[0]` of the
`documents` value raises `IndexError` on the error structure, modelled by a
`none` result carrying the calls made so far. -/
def retrievalPhase (env : Env) (role : String) (permitted : List String)
    (rbacFilter : ChromaFilter) : Option RAGResult × List ExtCall :=
  if env.embedOk then
    let allRes := query_documents env.ranking env.globalFail none 10
    match allRes.documents.head?, allRes.metadatas.head? with
    | some allTexts, some allMetas =>
        let scopedRes := query_documents env.ranking env.scopedFail (some rbacFilter) 5
        (match scopedRes.documents.head?, scopedRes.metadatas.head? with
         | some texts, some metas =>
             decisionPhase env role permitted allTexts allMetas texts metas
         | _, _ => (none, [ExtCall.embedCall, ExtCall.queryGlobal, ExtCall.queryScoped]))
    | _, _ => (none, [ExtCall.embedCall, ExtCall.queryGlobal])
  else (some RAGResult.embeddingFailure, [ExtCall.embedCall])

/-- rag_chain.py: `RAGChain.retrieve_and_generate`, returning the classified
outcome (`none` = an exception escaped) and the trace of external calls. -/
def retrieveAndGenerate (env : Env) (userQuery userRole : String) :
    Option RAGResult × List ExtCall :=
  if userQuery = "" then (some RAGResult.emptyQuery, [])
  else
    let rbacFilter := get_chroma_filter_for_role userRole
    let permitted := userPermittedDepartments userRole
    match inferQueryDepartment userQuery with
    | some d =>
        if d ≠ "" ∧ d ∉ permitted ∧ userRole ∉ privilegedRoles then
          (some (RAGResult.proactiveDenial (pyCapitalize d)), [])
        else retrievalPhase env userRole permitted rbacFilter
    | none => retrievalPhase env userRole permitted rbacFilter

/-- The five scoped hits the index returns for a role, when the scoped call
succeeds. -/
def scopedHits (env : Env) (role : String) : List (String × Metadata) :=
  (env.ranking.filter (fun p => matchesWhere (get_chroma_filter_for_role role) p.2)).take 5

/-- A department is admitted by a chroma filter when a chunk tagged with it
passes the `where` clause. -/
def filterAdmits (f : ChromaFilter) (d : String) : Bool :=
  matchesWhere f { source_file := none, department := some d, chunk_index := none }

/-! ### Specification-side restatement of the department inferencer (for C8) -/

/-- Department inference as the specification words it: count keyword
occurrences per department, keep the candidates reaching the threshold,
return none if there are no candidates, otherwise the first-listed
department holding the maximal count. -/
def inferQueryDepartmentSpec (query : String) : Option String :=
  let ql := strLower query
  let counts := DEPARTMENT_KEYWORDS.map (fun p => (p.1, keywordScore ql p.2))
  let candidates := counts.filter (fun p => decide (MIN_KEYWORD_MATCHES ≤ p.2))
  match candidates with
  | [] => none
  | _ :: _ =>
      let best := (candidates.map Prod.snd).foldl max 0
      (candidates.find? (fun p => p.2 == best)).map Prod.fst

/-- First-occurrence deduplicating fold (the `if not in: append` idiom). -/
def dedupAcc {α : Type} [DecidableEq α] (acc : List α) (l : List α) : List α :=
  l.foldl (fun a s => if s ∈ a then a else a ++ [s]) acc

/-- The numbered context strings built on the proceed path, starting at
chunk index `i`. -/
def labeled : Nat → List String → List String
  | _, [] => []
  | i, t :: ts => ("Document chunk " ++ toString (i + 1) ++ ":\n" ++ t) :: labeled (i + 1) ts

/-! ### Concrete chunks and request environments used by closed theorems -/

def chunkFin : Metadata :=
  { source_file := some "finance_report.md", department := some "finance", chunk_index := some 0 }

def chunkMkt : Metadata :=
  { source_file := some "marketing_report.md", department := some "marketing", chunk_index := some 0 }

def envUnknownRole : Env :=
  { embedOk := true, ranking := [("Q1 revenue details", chunkFin)],
    globalFail := false, scopedFail := false, llmResponse := some "Here are the details." }

def envIndexError : Env :=
  { embedOk := true, ranking := [], globalFail := true, scopedFail := false, llmResponse := none }

def envFinanceDenied : Env :=
  { embedOk := true, ranking := [("Marketing campaign results", chunkMkt)],
    globalFail := false, scopedFail := false, llmResponse := none }

def envScopedA : Env :=
  { embedOk := true, ranking := [("Budget overview", chunkFin)],
    globalFail := false, scopedFail := false, llmResponse := some "answer" }

def envScopedB : Env :=
  { embedOk := true,
    ranking := [("Marketing campaign results", chunkMkt), ("Budget overview", chunkFin)],
    globalFail := false, scopedFail := false, llmResponse := some "answer" }

def envDupSources : Env :=
  { embedOk := true, ranking := [("Budget overview", chunkFin), ("Budget details", chunkFin)],
    globalFail := false, scopedFail := false, llmResponse := some "answer" }

def envEmptyCorpus : Env :=
  { embedOk := true, ranking := [], globalFail := false, scopedFail := false, llmResponse := none }

/-! ### Lemmas about the first-maximum fold -/

theorem maxAcc_mem (l : List (String × Nat)) (c : String × Nat) :
    maxAcc c l = c ∨ maxAcc c l ∈ l := by
  induction l generalizing c with
  | nil => left; rfl
  | cons p ps ih =>
      by_cases hc : c.2 < p.2
      · rw [show maxAcc c (p :: ps) = maxAcc p ps by simp [maxAcc, hc]]
        rcases ih p with h | h
        · right; rw [h]; exact List.mem_cons_self p ps
        · right; exact List.mem_cons_of_mem _ h
      · rw [show maxAcc c (p :: ps) = maxAcc c ps by simp [maxAcc, hc]]
        rcases ih c with h | h
        · left; exact h
        · right; exact List.mem_cons_of_mem _ h

theorem maxAcc_snd (l : List (String × Nat)) (c : String × Nat) :
    (maxAcc c l).2 = l.foldl (fun a p => max a p.2) c.2 := by
  induction l generalizing c with
  | nil => rfl
  | cons p ps ih =>
      rw [List.foldl_cons]
      by_cases hc : c.2 < p.2
      · rw [show maxAcc c (p :: ps) = maxAcc p ps by simp [maxAcc, hc], ih p,
            Nat.max_eq_right (Nat.le_of_lt hc)]
      · rw [show maxAcc c (p :: ps) = maxAcc c ps by simp [maxAcc, hc], ih c,
            Nat.max_eq_left (Nat.le_of_not_lt hc)]

theorem foldl_max_init_le (l : List (String × Nat)) (b : Nat) :
    b ≤ l.foldl (fun a p => max a p.2) b := by
  induction l generalizing b with
  | nil => exact Nat.le_refl b
  | cons p ps ih =>
      rw [List.foldl_cons]
      exact Nat.le_trans (Nat.le_max_left b p.2) (ih (max b p.2))

theorem find?_maxAcc (l : List (String × Nat)) (c : String × Nat) :
    (c :: l).find? (fun p => p.2 == (maxAcc c l).2) = some (maxAcc c l) := by
  induction l generalizing c with
  | nil => simp [maxAcc]
  | cons p ps ih =>
      by_cases hc : c.2 < p.2
      · rw [show maxAcc c (p :: ps) = maxAcc p ps by simp [maxAcc, hc]]
        have hle : p.2 ≤ (maxAcc p ps).2 := by
          rw [maxAcc_snd]; exact foldl_max_init_le ps p.2
        have hcs : (c.2 == (maxAcc p ps).2) = false := by
          simp only [beq_eq_false_iff_ne, ne_eq]
          omega
        rw [List.find?_cons, hcs]
        exact ih p
      · rw [show maxAcc c (p :: ps) = maxAcc c ps by simp [maxAcc, hc]]
        have hcle : c.2 ≤ (maxAcc c ps).2 := by
          rw [maxAcc_snd]; exact foldl_max_init_le ps c.2
        have ihc := ih c
        by_cases he : c.2 = (maxAcc c ps).2
        · rw [List.find?_cons, show (c.2 == (maxAcc c ps).2) = true by simp [he]]
          rw [List.find?_cons, show (c.2 == (maxAcc c ps).2) = true by simp [he]] at ihc
          exact ihc
        · have hcf : (c.2 == (maxAcc c ps).2) = false := by simp [he]
          rw [List.find?_cons, hcf] at ihc
          rw [List.find?_cons, hcf, List.find?_cons,
              show (p.2 == (maxAcc c ps).2) = false by
                simp only [beq_eq_false_iff_ne, ne_eq]
                intro hp
                omega]
          exact ihc

theorem candidateScores_eq_filter (ql : String) :
    candidateScores ql =
      (DEPARTMENT_KEYWORDS.map (fun p => (p.1, keywordScore ql p.2))).filter
        (fun p => decide (MIN_KEYWORD_MATCHES ≤ p.2)) := by
  unfold candidateScores
  generalize DEPARTMENT_KEYWORDS = l
  induction l with
  | nil => rfl
  | cons p ps ih =>
      rw [List.filterMap_cons, List.map_cons, List.filter_cons]
      by_cases hp : MIN_KEYWORD_MATCHES ≤ keywordScore ql p.2
      · simp [hp, ih]
      · simp [hp, ih]

/-- Claim C8: department inference is exactly the specified algorithm —
lower-case the query, count keyword substring hits per department, return
none when no department reaches the minimum-match threshold, and otherwise
the first-listed department holding the maximal count (Python `max` over the
insertion-ordered candidate dict). -/
theorem claimC8_inference_matches_spec (query : String) :
    inferQueryDepartment query = inferQueryDepartmentSpec query := by
  simp only [inferQueryDepartment, inferQueryDepartmentSpec, candidateScores_eq_filter]
  cases h : (DEPARTMENT_KEYWORDS.map (fun p => (p.1, keywordScore (strLower query) p.2))).filter
      (fun p => decide (MIN_KEYWORD_MATCHES ≤ p.2)) with
  | nil => rfl
  | cons c cs =>
      rw [show ((c :: cs).map Prod.snd).foldl max 0 = (maxAcc c cs).2 by
            rw [maxAcc_snd, List.map_cons, List.foldl_cons, Nat.zero_max, List.foldl_map],
          find?_maxAcc]
      rfl

/-! ### Lemmas about source deduplication and context assembly -/

theorem mem_dedupAcc {α : Type} [DecidableEq α] (l : List α) (acc : List α) (x : α) :
    x ∈ dedupAcc acc l ↔ x ∈ acc ∨ x ∈ l := by
  induction l generalizing acc with
  | nil => simp [dedupAcc]
  | cons s t ih =>
      show x ∈ dedupAcc (if s ∈ acc then acc else acc ++ [s]) t ↔ x ∈ acc ∨ x ∈ s :: t
      rw [ih]
      by_cases hs : s ∈ acc
      · simp only [if_pos hs, List.mem_cons]
        constructor
        · rintro (h | h)
          · exact Or.inl h
          · exact Or.inr (Or.inr h)
        · rintro (h | h | h)
          · exact Or.inl h
          · exact Or.inl (h ▸ hs)
          · exact Or.inr h
      · simp only [if_neg hs, List.mem_append, List.mem_singleton, List.mem_cons]
        tauto

theorem nodup_dedupAcc {α : Type} [DecidableEq α] (l : List α) (acc : List α)
    (h : acc.Nodup) : (dedupAcc acc l).Nodup := by
  induction l generalizing acc with
  | nil => exact h
  | cons s t ih =>
      show (dedupAcc (if s ∈ acc then acc else acc ++ [s]) t).Nodup
      apply ih
      by_cases hs : s ∈ acc
      · simpa [hs]
      · simp [hs, List.nodup_append, h]

theorem composeGo_eq (ts : List String) (ms : List Metadata) (i : Nat) (ctx : List String)
    (srcs : List SourceInfo) (h : ts.length ≤ ms.length) :
    composeGo i ts ms ctx srcs =
      some (ctx ++ labeled i ts, dedupAcc srcs ((ms.take ts.length).map sourceInfoOf)) := by
  induction ts generalizing ms i ctx srcs with
  | nil => simp [composeGo, labeled, dedupAcc]
  | cons t ts ih =>
      cases ms with
      | nil => simp at h
      | cons m ms =>
          show composeGo (i + 1) ts ms
              (ctx ++ ["Document chunk " ++ toString (i + 1) ++ ":\n" ++ t])
              (if sourceInfoOf m ∈ srcs then srcs else srcs ++ [sourceInfoOf m]) = _
          rw [ih ms (i + 1) _ _ (by simpa using h)]
          simp [labeled, List.take_succ_cons, dedupAcc, List.append_assoc]

theorem composeGo_overrun (ts : List String) (ms : List Metadata) (i : Nat) (ctx : List String)
    (srcs : List SourceInfo) (h : ms.length < ts.length) :
    composeGo i ts ms ctx srcs = none := by
  induction ts generalizing ms i ctx srcs with
  | nil => simp at h
  | cons t ts ih =>
      cases ms with
      | nil => rfl
      | cons m ms =>
          show composeGo (i + 1) ts ms _ _ = none
          exact ih ms (i + 1) _ _ (by simpa using h)

theorem compose_eq_of_length (texts : List String) (metas : List Metadata)
    (h : texts.length = metas.length) :
    composeContextAndSources texts metas =
      some (labeled 0 texts, dedupAcc [] (metas.map sourceInfoOf)) := by
  unfold composeContextAndSources
  rw [composeGo_eq texts metas 0 [] [] (le_of_eq h), h, List.take_length]
  simp

/-! ### Lemmas about the decision logic -/

theorem deniedDepartments_privileged (role : String) (permitted : List String)
    (metas : List Metadata) (h : role ∈ privilegedRoles) :
    deniedDepartments role permitted metas = [] := by
  unfold deniedDepartments
  generalize ([] : List String) = acc
  induction metas generalizing acc with
  | nil => rfl
  | cons m t ih =>
      rcases hdm : m.department with _ | d
      · rw [List.foldl_cons]
        simp only [hdm]
        exact ih acc
      · rw [List.foldl_cons]
        simp only [hdm]
        rw [if_neg (fun hc => hc.2.2 h)]
        exact ih acc

theorem decisionPhase_no_proactive (env : Env) (role : String) (permitted : List String)
    (allTexts : List String) (allMetas : List Metadata) (texts : List String)
    (metas : List Metadata) (d : String) :
    (decisionPhase env role permitted allTexts allMetas texts metas).1 ≠
      some (RAGResult.proactiveDenial d) := by
  simp only [decisionPhase]
  split
  · split
    · simp
    · split
      · simp
      · simp
  · split
    · simp
    · simp

theorem decisionPhase_no_reactive_priv (env : Env) (role : String) (permitted : List String)
    (allTexts : List String) (allMetas : List Metadata) (texts : List String)
    (metas : List Metadata) (ds : List String) (hpriv : role ∈ privilegedRoles) :
    (decisionPhase env role permitted allTexts allMetas texts metas).1 ≠
      some (RAGResult.reactiveDenial ds) := by
  simp only [decisionPhase]
  split
  · split
    · simp
    · split
      · next hden =>
          exact absurd (deniedDepartments_privileged role permitted allMetas hpriv) hden
      · simp
  · split
    · simp
    · simp

theorem retrievalPhase_no_proactive (env : Env) (role : String) (permitted : List String)
    (rbacFilter : ChromaFilter) (d : String) :
    (retrievalPhase env role permitted rbacFilter).1 ≠ some (RAGResult.proactiveDenial d) := by
  simp only [retrievalPhase]
  split
  · split
    · split
      · exact decisionPhase_no_proactive _ _ _ _ _ _ _ _
      · simp
    · simp
  · simp

theorem retrievalPhase_no_reactive_priv (env : Env) (role : String) (permitted : List String)
    (rbacFilter : ChromaFilter) (ds : List String) (hpriv : role ∈ privilegedRoles) :
    (retrievalPhase env role permitted rbacFilter).1 ≠ some (RAGResult.reactiveDenial ds) := by
  simp only [retrievalPhase]
  split
  · split
    · split
      · exact decisionPhase_no_reactive_priv _ _ _ _ _ _ _ _ hpriv
      · simp
    · simp
  · simp

theorem retrieve_passes (env : Env) (q role : String) (hq : q ≠ "")
    (hpd : ∀ d, inferQueryDepartment q = some d →
      d = "" ∨ d ∈ userPermittedDepartments role ∨ role ∈ privilegedRoles) :
    retrieveAndGenerate env q role =
      retrievalPhase env role (userPermittedDepartments role) (get_chroma_filter_for_role role) := by
  simp only [retrieveAndGenerate]
  rw [if_neg hq]
  split
  · next d0 heq =>
      rw [if_neg]
      intro hc
      rcases hpd d0 heq with h | h | h
      · exact hc.1 h
      · exact hc.2.1 h
      · exact hc.2.2 h
  · rfl

theorem retrievalPhase_eq (env : Env) (role : String) (permitted : List String)
    (rbacFilter : ChromaFilter) (hemb : env.embedOk = true)
    (hgf : env.globalFail = false) (hsf : env.scopedFail = false) :
    retrievalPhase env role permitted rbacFilter =
      decisionPhase env role permitted
        ((env.ranking.take 10).map Prod.fst) ((env.ranking.take 10).map Prod.snd)
        (((env.ranking.filter (fun p => matchesWhere rbacFilter p.2)).take 5).map Prod.fst)
        (((env.ranking.filter (fun p => matchesWhere rbacFilter p.2)).take 5).map Prod.snd) := by
  simp [retrievalPhase, query_documents, hemb, hgf, hsf]

theorem scopedHits_eq (env : Env) (role : String) :
    scopedHits env role =
      (env.ranking.filter
        (fun p => matchesWhere (get_chroma_filter_for_role role) p.2)).take 5 := rfl

theorem retrieve_proceed_eq (env : Env) (q role : String) (hq : q ≠ "")
    (hpd : ∀ d, inferQueryDepartment q = some d →
      d = "" ∨ d ∈ userPermittedDepartments role ∨ role ∈ privilegedRoles)
    (hemb : env.embedOk = true) (hgf : env.globalFail = false) (hsf : env.scopedFail = false)
    (hne : scopedHits env role ≠ []) :
    retrieveAndGenerate env q role =
      (some (RAGResult.proceed (labeled 0 ((scopedHits env role).map Prod.fst))
          (dedupAcc [] (((scopedHits env role).map Prod.snd).map sourceInfoOf))
          env.llmResponse),
       [ExtCall.embedCall, ExtCall.queryGlobal, ExtCall.queryScoped, ExtCall.llmCall]) := by
  rw [retrieve_passes env q role hq hpd,
      retrievalPhase_eq env role _ _ hemb hgf hsf, ← scopedHits_eq env role]
  have htex : ((scopedHits env role).map Prod.fst) ≠ [] := by
    simpa using hne
  simp only [decisionPhase, if_neg htex]
  rw [compose_eq_of_length _ _ (by simp)]

/-- Claim C7: whenever the global unfiltered probe returns an empty result
set (and both index calls return rather than raise), the outcome is the
NotFound classification for every role and every query that passes the
proactive check — never an AccessDenied, since no department can be found
forbidden among zero global results. -/
theorem claimC7_global_empty_not_found (env : Env) (q role : String) (hq : q ≠ "")
    (hpd : ∀ d, inferQueryDepartment q = some d →
      d = "" ∨ d ∈ userPermittedDepartments role ∨ role ∈ privilegedRoles)
    (hemb : env.embedOk = true) (hgf : env.globalFail = false) (hsf : env.scopedFail = false)
    (hempty : env.ranking.take 10 = []) :
    retrieveAndGenerate env q role =
      (some RAGResult.notFoundGlobal,
       [ExtCall.embedCall, ExtCall.queryGlobal, ExtCall.queryScoped]) := by
  have hr : env.ranking = [] := by
    cases hrk : env.ranking with
    | nil => rfl
    | cons a t => rw [hrk] at hempty; simp at hempty
  rw [retrieve_passes env q role hq hpd,
      retrievalPhase_eq env role _ _ hemb hgf hsf, hr]
  simp [decisionPhase]

/-- Claim C6: whenever the role-scoped retrieval returns a nonempty result
set, the outcome is PROCEED with exactly those scoped passages as the
context handed to the answer composer, and the source list is drawn only
from those passages, independently of the contents of the global
unfiltered probe (a second environment returning the same scoped hits but
any other global contents yields the identical result). -/
theorem claimC6_scoped_nonempty_proceeds (env env2 : Env) (q role : String) (hq : q ≠ "")
    (hpd : ∀ d, inferQueryDepartment q = some d →
      d = "" ∨ d ∈ userPermittedDepartments role ∨ role ∈ privilegedRoles)
    (hemb : env.embedOk = true) (hgf : env.globalFail = false) (hsf : env.scopedFail = false)
    (hemb2 : env2.embedOk = true) (hgf2 : env2.globalFail = false) (hsf2 : env2.scopedFail = false)
    (hne : scopedHits env role ≠ [])
    (hsame : scopedHits env2 role = scopedHits env role)
    (hllm : env2.llmResponse = env.llmResponse) :
    retrieveAndGenerate env q role =
      (some (RAGResult.proceed (labeled 0 ((scopedHits env role).map Prod.fst))
          (dedupAcc [] (((scopedHits env role).map Prod.snd).map sourceInfoOf))
          env.llmResponse),
       [ExtCall.embedCall, ExtCall.queryGlobal, ExtCall.queryScoped, ExtCall.llmCall]) ∧
    retrieveAndGenerate env2 q role = retrieveAndGenerate env q role := by
  have h1 := retrieve_proceed_eq env q role hq hpd hemb hgf hsf hne
  have h2 := retrieve_proceed_eq env2 q role hq hpd hemb2 hgf2 hsf2 (by rw [hsame]; exact hne)
  refine ⟨h1, ?_⟩
  rw [h1, h2, hsame, hllm]

theorem decisionPhase_proceed_inv (env : Env) (role : String) (permitted : List String)
    (allTexts : List String) (allMetas : List Metadata) (texts : List String)
    (metas : List Metadata) (ctx : List String) (srcs : List SourceInfo)
    (llm : Option String) (tr : List ExtCall)
    (h : decisionPhase env role permitted allTexts allMetas texts metas =
      (some (RAGResult.proceed ctx srcs llm), tr)) :
    composeContextAndSources texts metas = some (ctx, srcs) := by
  simp only [decisionPhase] at h
  split at h
  · split at h
    · simp at h
    · split at h
      · simp at h
      · simp at h
  · split at h
    · next ctx0 srcs0 heq =>
        simp only [Prod.mk.injEq, Option.some.injEq, RAGResult.proceed.injEq] at h
        rw [heq, h.1.1, h.1.2.1]
    · simp at h

theorem retrievalPhase_proceed_inv (env : Env) (role : String) (permitted : List String)
    (rbacFilter : ChromaFilter) (ctx : List String) (srcs : List SourceInfo)
    (llm : Option String) (tr : List ExtCall)
    (h : retrievalPhase env role permitted rbacFilter = (some (RAGResult.proceed ctx srcs llm), tr)) :
    composeContextAndSources
        (((env.ranking.filter (fun p => matchesWhere rbacFilter p.2)).take 5).map Prod.fst)
        (((env.ranking.filter (fun p => matchesWhere rbacFilter p.2)).take 5).map Prod.snd) =
      some (ctx, srcs) := by
  cases hemb : env.embedOk with
  | false => simp [retrievalPhase, hemb] at h
  | true =>
      cases hgf : env.globalFail with
      | true => simp [retrievalPhase, query_documents, hemb, hgf] at h
      | false =>
          cases hsf : env.scopedFail with
          | true => simp [retrievalPhase, query_documents, hemb, hgf, hsf] at h
          | false =>
              simp only [retrievalPhase, query_documents, hemb, hgf, hsf, if_true,
                Bool.false_eq_true, if_false, List.head?_cons] at h
              exact decisionPhase_proceed_inv _ _ _ _ _ _ _ _ _ _ _ h

theorem retrieve_proceed_inv (env : Env) (q role : String) (ctx : List String)
    (srcs : List SourceInfo) (llm : Option String) (tr : List ExtCall)
    (h : retrieveAndGenerate env q role = (some (RAGResult.proceed ctx srcs llm), tr)) :
    composeContextAndSources ((scopedHits env role).map Prod.fst)
      ((scopedHits env role).map Prod.snd) = some (ctx, srcs) := by
  simp only [retrieveAndGenerate] at h
  rw [scopedHits_eq]
  split at h
  · simp at h
  · split at h
    · split at h
      · simp at h
      · exact retrievalPhase_proceed_inv _ _ _ _ _ _ _ _ h
    · exact retrievalPhase_proceed_inv _ _ _ _ _ _ _ _ h

/-- Claim C9: on a PROCEED outcome the returned source list is deduplicated
by full-tuple equality — it has no duplicate (source_file, department,
chunk_index) entries, and the set of its entries is exactly the set of
source tuples of the scoped passages actually used. -/
theorem claimC9_sources_deduplicated (env : Env) (q role : String) (ctx : List String)
    (srcs : List SourceInfo) (llm : Option String) (tr : List ExtCall)
    (h : retrieveAndGenerate env q role = (some (RAGResult.proceed ctx srcs llm), tr)) :
    srcs.Nodup ∧
      srcs.toFinset = (((scopedHits env role).map Prod.snd).map sourceInfoOf).toFinset := by
  have hc := retrieve_proceed_inv env q role ctx srcs llm tr h
  rw [compose_eq_of_length _ _ (by simp)] at hc
  have hs : srcs = dedupAcc [] (((scopedHits env role).map Prod.snd).map sourceInfoOf) := by
    have h2 := congrArg Prod.snd (Option.some.inj hc)
    simpa using h2.symm
  subst hs
  constructor
  · exact nodup_dedupAcc _ _ List.nodup_nil
  · apply Finset.ext
    intro a
    simp [List.mem_toFinset, mem_dedupAcc]

/-! ### Lemmas about the keyword table and the proactive gate -/

theorem dept_table_lookup (p : String × List String) (hp : p ∈ DEPARTMENT_KEYWORDS) :
    DEPARTMENT_KEYWORDS.lookup p.1 = some p.2 := by
  fin_cases hp <;> rfl

theorem dept_table_key_ne_empty (p : String × List String) (hp : p ∈ DEPARTMENT_KEYWORDS) :
    p.1 ≠ "" := by
  fin_cases hp <;> decide

theorem dept_table_kw_ne_empty (p : String × List String) (hp : p ∈ DEPARTMENT_KEYWORDS) :
    "" ∉ p.2 := by
  fin_cases hp <;> decide

theorem mem_candidateScores (ql : String) (d : String) (s : Nat)
    (h : (d, s) ∈ candidateScores ql) :
    ∃ kws, (d, kws) ∈ DEPARTMENT_KEYWORDS ∧ s = keywordScore ql kws ∧ 1 ≤ s := by
  unfold candidateScores at h
  rcases List.mem_filterMap.mp h with ⟨p, hp, he⟩
  dsimp only at he
  by_cases hc : MIN_KEYWORD_MATCHES ≤ keywordScore ql p.2
  · rw [if_pos hc] at he
    obtain ⟨hd, hs⟩ := Prod.mk.injEq .. ▸ Option.some.inj he
    refine ⟨p.2, ?_, hs.symm, ?_⟩
    · rw [← hd]; simpa using hp
    · rw [← hs]; exact hc
  · rw [if_neg hc] at he
    exact absurd he (by simp)

theorem candidate_of_table (ql : String) (d : String) (kws : List String)
    (hmem : (d, kws) ∈ DEPARTMENT_KEYWORDS) (hscore : 1 ≤ keywordScore ql kws) :
    (d, keywordScore ql kws) ∈ candidateScores ql := by
  unfold candidateScores
  exact List.mem_filterMap.mpr ⟨(d, kws), hmem, by simp [MIN_KEYWORD_MATCHES, hscore]⟩

theorem query_ne_empty_of_score (q : String) (kws : List String)
    (hkw : "" ∉ kws) (h : 1 ≤ keywordScore (strLower q) kws) : q ≠ "" := by
  intro hq
  subst hq
  unfold keywordScore at h
  have hne : kws.filter (fun k => strContains (strLower "") k) ≠ [] := by
    intro h0
    rw [h0] at h
    simp at h
  rcases List.exists_mem_of_ne_nil _ hne with ⟨k, hk⟩
  have hk2 := List.mem_filter.mp hk
  have hinf : List.IsInfix k.toList (strLower "").toList := by
    have := hk2.2
    unfold strContains at this
    exact of_decide_eq_true this
  have hknil : k.toList = [] := by
    have hlow : (strLower "").toList = [] := rfl
    rw [hlow] at hinf
    exact List.eq_nil_of_infix_nil hinf
  have : k = "" := by
    cases k with
    | mk data => simp [String.toList] at hknil; rw [hknil]
  exact hkw (this ▸ hk2.1)

/-- Claim C5: for a non-privileged role and a department D outside its
permitted set, a query containing at least one keyword of D and no keyword
of any permitted department is denied proactively, before any external call:
the result is the proactive denial and the external-call trace is empty
(no embedding call, no index query). -/
theorem claimC5_proactive_denial_before_retrieval (env : Env) (q R D : String)
    (hpriv : R ∉ privilegedRoles)
    (hDkey : D ∈ DEPARTMENT_KEYWORDS.map Prod.fst)
    (hhit : 1 ≤ keywordScore (strLower q) ((DEPARTMENT_KEYWORDS.lookup D).getD []))
    (hDnot : D ∉ userPermittedDepartments R)
    (hperm : ∀ P ∈ userPermittedDepartments R,
      keywordScore (strLower q) ((DEPARTMENT_KEYWORDS.lookup P).getD []) = 0) :
    retrieveAndGenerate env q R =
      (some (RAGResult.proactiveDenial (pyCapitalize ((inferQueryDepartment q).getD ""))), []) := by
  rcases List.mem_map.mp hDkey with ⟨p, hpmem, hpfst⟩
  have hlook : DEPARTMENT_KEYWORDS.lookup D = some p.2 := by
    rw [← hpfst]; exact dept_table_lookup p hpmem
  rw [hlook] at hhit
  simp only [Option.getD_some] at hhit
  have hq : q ≠ "" := query_ne_empty_of_score q p.2 (dept_table_kw_ne_empty p hpmem) hhit
  have hmemD : (D, p.2) ∈ DEPARTMENT_KEYWORDS := by
    rw [← hpfst]; simpa using hpmem
  have hcand := candidate_of_table (strLower q) D p.2 hmemD hhit
  obtain ⟨c, cs, hcc⟩ : ∃ c cs, candidateScores (strLower q) = c :: cs := by
    cases hc0 : candidateScores (strLower q) with
    | nil => rw [hc0] at hcand; simp at hcand
    | cons c cs => exact ⟨c, cs, rfl⟩
  have hinf : inferQueryDepartment q = some (maxAcc c cs).1 := by
    unfold inferQueryDepartment
    rw [hcc]
  have hrmem : maxAcc c cs ∈ candidateScores (strLower q) := by
    rw [hcc]
    rcases maxAcc_mem cs c with h | h
    · rw [h]; exact List.mem_cons_self c cs
    · exact List.mem_cons_of_mem _ h
  obtain ⟨kwsr, hkrmem, hkreq, hkrge⟩ :=
    mem_candidateScores (strLower q) (maxAcc c cs).1 (maxAcc c cs).2 (by simpa using hrmem)
  have hrnot : (maxAcc c cs).1 ∉ userPermittedDepartments R := by
    intro hmem
    have h0 := hperm (maxAcc c cs).1 hmem
    have hlookr : DEPARTMENT_KEYWORDS.lookup (maxAcc c cs).1 = some kwsr :=
      dept_table_lookup ((maxAcc c cs).1, kwsr) hkrmem
    rw [hlookr] at h0
    simp only [Option.getD_some] at h0
    rw [← hkreq] at h0
    omega
  have hrne : (maxAcc c cs).1 ≠ "" :=
    dept_table_key_ne_empty ((maxAcc c cs).1, kwsr) hkrmem
  simp only [retrieveAndGenerate]
  rw [if_neg hq]
  split
  · next d0 heq =>
      have hd0 : d0 = (maxAcc c cs).1 := by
        rw [hinf] at heq
        exact (Option.some.inj heq).symm
      subst hd0
      rw [if_pos ⟨hrne, hrnot, hpriv⟩, heq]
      rfl
  · next heq =>
      rw [hinf] at heq
      exact absurd heq (by simp)

/-- Claim C4: the two privileged roles never receive an AccessDenied
outcome, whatever the environment, the query and the inferred department:
both the proactive and the reactive denial branches are unreachable. -/
theorem claimC4_privileged_never_denied (env : Env) (q role d : String) (ds : List String)
    (hpriv : role = "Admin" ∨ role = "C-Level Executives") :
    (retrieveAndGenerate env q role).1 ≠ some (RAGResult.proactiveDenial d) ∧
    (retrieveAndGenerate env q role).1 ≠ some (RAGResult.reactiveDenial ds) := by
  have hp : role ∈ privilegedRoles := by
    rcases hpriv with h | h <;> rw [h] <;> decide
  constructor
  · simp only [retrieveAndGenerate]
    by_cases hq : q = ""
    · rw [if_pos hq]; simp
    · rw [if_neg hq]
      split
      · split
        · next hc => exact absurd hp hc.2.2
        · exact retrievalPhase_no_proactive _ _ _ _ _
      · exact retrievalPhase_no_proactive _ _ _ _ _
  · simp only [retrieveAndGenerate]
    by_cases hq : q = ""
    · rw [if_pos hq]; simp
    · rw [if_neg hq]
      split
      · split
        · next hc => exact absurd hp hc.2.2
        · exact retrievalPhase_no_reactive_priv _ _ _ _ _ hp
      · exact retrievalPhase_no_reactive_priv _ _ _ _ _ hp

theorem claimC4_witness :
    (retrieveAndGenerate envEmptyCorpus "show me the budget" "Admin").1 ≠
      some (RAGResult.proactiveDenial "Finance") ∧
    (retrieveAndGenerate envEmptyCorpus "show me the budget" "Admin").1 ≠
      some (RAGResult.reactiveDenial ["Finance"]) :=
  claimC4_privileged_never_denied envEmptyCorpus "show me the budget" "Admin"
    "Finance" ["Finance"] (Or.inl rfl)

/-- Claim C3 (amended): a query whose only inferred department D is
permitted to the role never triggers the proactive keyword-based denial;
the reactive denial computed from the global probe metadata remains
reachable (see the counterexample). -/
theorem claimC3_permitted_inferred_no_proactive_denial (env : Env) (q role D d : String)
    (hinf : inferQueryDepartment q = some D)
    (hperm : D ∈ userPermittedDepartments role) :
    (retrieveAndGenerate env q role).1 ≠ some (RAGResult.proactiveDenial d) := by
  simp only [retrieveAndGenerate]
  by_cases hq : q = ""
  · rw [if_pos hq]; simp
  · rw [if_neg hq]
    split
    · next d0 heq =>
        rw [hinf] at heq
        have hd0 := Option.some.inj heq
        subst hd0
        split
        · next hc => exact absurd hperm hc.2.1
        · exact retrievalPhase_no_proactive _ _ _ _ _
    · exact retrievalPhase_no_proactive _ _ _ _ _

/-- Claim C3 counterexample: for the Finance Team role, the query
"show me the budget" has finance as its only inferred department (all other
keyword scores are zero) and finance is permitted, yet the outcome is an
AccessDenied (the reactive denial naming Marketing), because the scoped
retrieval is empty while the global probe surfaces a marketing chunk. -/
theorem claimC3_counterexample :
    inferQueryDepartment "show me the budget" = some "finance" ∧
    "finance" ∈ userPermittedDepartments "Finance Team" ∧
    keywordScore (strLower "show me the budget")
      ((DEPARTMENT_KEYWORDS.lookup "marketing").getD []) = 0 ∧
    keywordScore (strLower "show me the budget")
      ((DEPARTMENT_KEYWORDS.lookup "hr").getD []) = 0 ∧
    keywordScore (strLower "show me the budget")
      ((DEPARTMENT_KEYWORDS.lookup "engineering").getD []) = 0 ∧
    retrieveAndGenerate envFinanceDenied "show me the budget" "Finance Team" =
      (some (RAGResult.reactiveDenial ["Marketing"]),
       [ExtCall.embedCall, ExtCall.queryGlobal, ExtCall.queryScoped]) := by
  decide

theorem claimC3_witness :
    (retrieveAndGenerate envFinanceDenied "show me the budget" "Finance Team").1 ≠
      some (RAGResult.proactiveDenial "Marketing") :=
  claimC3_permitted_inferred_no_proactive_denial envFinanceDenied "show me the budget"
    "Finance Team" "finance" "Marketing" (by decide) (by decide)

theorem claimC5_witness :
    retrieveAndGenerate envEmptyCorpus "customer acquisition" "Finance Team" =
      (some (RAGResult.proactiveDenial
        (pyCapitalize ((inferQueryDepartment "customer acquisition").getD ""))), []) :=
  claimC5_proactive_denial_before_retrieval envEmptyCorpus "customer acquisition"
    "Finance Team" "marketing" (by decide) (by decide) (by decide) (by decide) (by decide)

theorem claimC6_witness :
    retrieveAndGenerate envScopedA "what is the budget" "Finance Team" =
      (some (RAGResult.proceed (labeled 0 ((scopedHits envScopedA "Finance Team").map Prod.fst))
          (dedupAcc [] (((scopedHits envScopedA "Finance Team").map Prod.snd).map sourceInfoOf))
          envScopedA.llmResponse),
       [ExtCall.embedCall, ExtCall.queryGlobal, ExtCall.queryScoped, ExtCall.llmCall]) ∧
    retrieveAndGenerate envScopedB "what is the budget" "Finance Team" =
      retrieveAndGenerate envScopedA "what is the budget" "Finance Team" :=
  claimC6_scoped_nonempty_proceeds envScopedA envScopedB "what is the budget" "Finance Team"
    (by decide)
    (by
      intro d hd
      have h1 : inferQueryDepartment "what is the budget" = some "finance" := by decide
      rw [h1] at hd
      right; left
      rw [← Option.some.inj hd]
      decide)
    rfl rfl rfl rfl rfl rfl (by decide) (by decide) rfl

theorem claimC7_witness :
    retrieveAndGenerate envEmptyCorpus "What is the capital of Mars?" "Admin" =
      (some RAGResult.notFoundGlobal,
       [ExtCall.embedCall, ExtCall.queryGlobal, ExtCall.queryScoped]) :=
  claimC7_global_empty_not_found envEmptyCorpus "What is the capital of Mars?" "Admin"
    (by decide) (by intro d hd; right; right; decide) rfl rfl rfl rfl

theorem claimC9_witness :
    ([{ source_file := "finance_report.md", department := "finance", chunk_index := 0 }] :
        List SourceInfo).Nodup ∧
    ([{ source_file := "finance_report.md", department := "finance", chunk_index := 0 }] :
        List SourceInfo).toFinset =
      (((scopedHits envDupSources "Finance Team").map Prod.snd).map sourceInfoOf).toFinset :=
  claimC9_sources_deduplicated envDupSources "what is our budget" "Finance Team"
    ["Document chunk 1:\nBudget overview", "Document chunk 2:\nBudget details"]
    [{ source_file := "finance_report.md", department := "finance", chunk_index := 0 }]
    (some "answer")
    [ExtCall.embedCall, ExtCall.queryGlobal, ExtCall.queryScoped, ExtCall.llmCall]
    (by decide)

/-- Claim C1 (code bug): for the unknown role "Intern" the permission lookup
is empty and the compiled filter is the empty dictionary, yet a query with
no inferrable department proceeds with a finance chunk as context and a
generated answer: the empty filter acts as no filter at the index (chroma
applies only a truthy where clause), not as deny-by-default, contradicting
the deny-by-default contract stated in rbac.py itself. -/
theorem claimC1_unknown_role_proceeds :
    ROLE_PERMISSIONS.lookup "Intern" = none ∧
    get_chroma_filter_for_role "Intern" = ChromaFilter.empty ∧
    userPermittedDepartments "Intern" = [] ∧
    retrieveAndGenerate envUnknownRole "hello" "Intern" =
      (some (RAGResult.proceed ["Document chunk 1:\nQ1 revenue details"]
          [{ source_file := "finance_report.md", department := "finance", chunk_index := 0 }]
          (some "Here are the details.")),
       [ExtCall.embedCall, ExtCall.queryGlobal, ExtCall.queryScoped, ExtCall.llmCall]) := by
  decide

/-- Claim C2 (code bug): when the unfiltered index query raises, the gateway
returns the error structure whose documents value is the flat empty list, so
reading its first element raises an IndexError out of retrieve_and_generate
(the `none` outcome) right after the embedding and global-query calls: the
engine neither returns a pair nor folds the failure into a NotFound or
AccessDenied outcome. -/
theorem claimC2_index_error_escapes :
    query_documents envIndexError.ranking true none 10 =
      { documents := [], metadatas := [] } ∧
    retrieveAndGenerate envIndexError "hr policy" "HR Team" =
      (none, [ExtCall.embedCall, ExtCall.queryGlobal]) := by
  decide

/-- Claim C10: for every role present in the permission table, the flattened
permitted-department set used by the engine coincides with the set of
departments admitted by the chroma filter that get_chroma_filter_for_role
returns for that role, and the two privileged roles are granted exactly
ALL_DEPARTMENTS. -/
theorem claimC10_permissions_match_filter (role d : String)
    (hrole : role ∈ ROLE_PERMISSIONS.map Prod.fst) :
    (d ∈ userPermittedDepartments role ↔
      filterAdmits (get_chroma_filter_for_role role) d = true) ∧
    userPermittedDepartments "Admin" = ALL_DEPARTMENTS ∧
    userPermittedDepartments "C-Level Executives" = ALL_DEPARTMENTS := by
  refine ⟨?_, by decide, by decide⟩
  simp only [ROLE_PERMISSIONS, ALL_DEPARTMENTS, List.map] at hrole
  fin_cases hrole <;>
    simp [userPermittedDepartments, flattenPermissions, get_chroma_filter_for_role,
      ROLE_PERMISSIONS, ALL_DEPARTMENTS, List.lookup, filterAdmits, matchesWhere]

theorem claimC10_witness :
    ("finance" ∈ userPermittedDepartments "Finance Team" ↔
      filterAdmits (get_chroma_filter_for_role "Finance Team") "finance" = true) ∧
    userPermittedDepartments "Admin" = ALL_DEPARTMENTS ∧
    userPermittedDepartments "C-Level Executives" = ALL_DEPARTMENTS :=
  claimC10_permissions_match_filter "Finance Team" "finance" (by decide)
